import Mathlib

/-!
Shallow embedding of `main.cpp` of yellowcamper/risc-v_assembler.

The assembler reads an input file line by line.  Pass 1 scans for labels
(`name:` as the first token of a line) and records them; pass 2 encodes each
line into a 32-bit word and prints every non-zero word as eight uppercase hex
digits.  Tokens are extracted with `stringstream >> temp`; the embedding keeps
a faithful model of the stream state (`eofbit`/`failbit`), because pass 1
reuses one `stringstream` across lines via `.str(...)`, which does *not*
clear the error flags.

Machine integers are modelled as `Nat` (with explicit `% 2 ^ 32` / `% 2 ^ 64`
where the C++ converts between `int`, `uint32_t` and `uint64_t`), and `Int`
for the result of `stoi`.  `abort()` and thrown exceptions are modelled as
`none`.
-/

namespace Rva

/-- Whitespace as skipped by `operator>>` (C locale `isspace`). -/
def isWsC (c : Char) : Bool :=
  c == ' ' || c == '\t' || c == '\n' || c == '\x0b' || c == '\x0c' || c == '\r'

/-- The check `(c <= '9') && (c >= '0')` used throughout the source. -/
def digitC (c : Char) : Bool := decide ('0' ≤ c ∧ c ≤ '9')

/-- First character of a token, `temp.at(0)`; tokens are non-empty wherever
the source reads `at(0)`, the default is irrelevant. -/
def headD (t : List Char) : Char := t.headD ' '

/-- Last character of a token, `temp.at(temp.size() - 1)`. -/
def lastD (t : List Char) : Char := t.getLastD ' '

/-- State of a `std::stringstream` used for token extraction: the characters
not yet consumed, and the `eofbit` / `failbit` flags. -/
structure SState where
  rest : List Char
  eofb : Bool
  failb : Bool
  deriving Repr, DecidableEq

/-- One `ss >> temp` step.  If `failbit` is set the extraction does nothing;
if `eofbit` is set the sentry fails and sets `failbit` (leaving `temp`
unchanged); otherwise leading whitespace is skipped, and either the stream
runs out (`failbit|eofbit`, `temp` unchanged) or the maximal run of
non-whitespace characters is read into `temp` (`eofbit` set when the token
reaches the end of the buffer). -/
def extract (s : SState) (t : List Char) : SState × List Char :=
  if s.failb then (s, t)
  else if s.eofb then (⟨s.rest, s.eofb, true⟩, t)
  else
    match s.rest.dropWhile isWsC with
    | [] => (⟨[], true, true⟩, t)
    | c :: cs =>
      (⟨(c :: cs).dropWhile (fun a => !isWsC a),
        ((c :: cs).dropWhile (fun a => !isWsC a)).isEmpty, false⟩,
       (c :: cs).takeWhile (fun a => !isWsC a))

/-- The digit-accumulation loop of `getRegister`:
`numeric_part += (d * (size - i - 1) * 10) + (d * (i == size - 1))`. -/
def npGo : List Char → Nat → Nat → Nat
  | [], _, _ => 0
  | c :: cs, i, n =>
    (if digitC c then (c.toNat - 48) * ((n - i - 1) * 10) +
        (c.toNat - 48) * (if i = n - 1 then 1 else 0) else 0) + npGo cs (i + 1) n

/-- `numeric_part` computed by `getRegister`'s loop. -/
def numericPart (l : List Char) : Nat := npGo l 0 l.length

/-- `non_numeric_part`: the non-digit characters of the token, in order. -/
def nonNumeric (l : List Char) : List Char := l.filter (fun c => !digitC c)

/-- `risc_v_assembler::getRegister`: interpret a register token and place the
5-bit register number at bit `off`; `none` models the `abort()` calls. -/
def getRegister (l : List Char) (off : Nat) : Option Nat :=
  if 4 < l.length then none
  else
    let n := numericPart l
    let nn := nonNumeric l
    if nn = ['x'] ∧ n < 32 then some (n <<< off)
    else if nn = ['t'] ∧ n < 7 then
      some ((if n < 3 then 5 + n else 25 + n) <<< off)
    else if nn = ['s'] ∧ n < 12 then
      some ((if n < 2 then 8 + n else 16 + n) <<< off)
    else if nn = ['a'] ∧ n < 8 then some ((10 + n) <<< off)
    else if nn = ['r', 'a'] ∧ l.length = 2 then some (1 <<< off)
    else if nn = ['s', 'p'] ∧ l.length = 2 then some (2 <<< off)
    else if nn = ['g', 'p'] ∧ l.length = 2 then some (3 <<< off)
    else if nn = ['t', 'p'] ∧ l.length = 2 then some (4 <<< off)
    else if nn = ['f', 'p'] ∧ l.length = 2 then some (8 <<< off)
    else if nn = ['z', 'e', 'r', 'o'] ∧ l.length = 4 then some (0 <<< off)
    else none

/-- Written from the amended C8 claim's words, to be compared with
`getRegister`: the token's non-digit characters form a recognized family or
alias, with the digit-weighted value in range for that family (the token
length constraint standing in for "no extra characters" on the two-letter
aliases and `zero`). -/
def famRange (nn : List Char) (n len : Nat) : Prop :=
  (nn = ['x'] ∧ n < 32) ∨ (nn = ['t'] ∧ n < 7) ∨ (nn = ['s'] ∧ n < 12) ∨
  (nn = ['a'] ∧ n < 8) ∨ (nn = ['r', 'a'] ∧ len = 2) ∨ (nn = ['s', 'p'] ∧ len = 2) ∨
  (nn = ['g', 'p'] ∧ len = 2) ∨ (nn = ['t', 'p'] ∧ len = 2) ∨
  (nn = ['f', 'p'] ∧ len = 2) ∨ (nn = ['z', 'e', 'r', 'o'] ∧ len = 4)

/-- The mnemonic table of `getOpcode`, in source order: mnemonic, instruction
type tag, and base word (opcode, funct3, funct7 bits). -/
def opTable : List (String × Char × Nat) :=
  [("lb", 'I', 0x00000003), ("lh", 'I', 0x00001003), ("lw", 'I', 0x00002003),
   ("ld", 'I', 0x00003003), ("lbu", 'I', 0x00004003), ("lhu", 'I', 0x00005003),
   ("lwu", 'I', 0x00006003), ("addi", 'I', 0x00000013), ("slli", 'I', 0x00001013),
   ("slti", 'I', 0x00002013), ("sltiu", 'I', 0x00003013), ("xori", 'I', 0x00004013),
   ("srli", 'I', 0x00005013), ("srai", 'I', 0x40005013), ("ori", 'I', 0x00006013),
   ("andi", 'I', 0x00007013), ("auipc", 'U', 0x00000017), ("addiw", 'I', 0x0000001B),
   ("slliw", 'I', 0x0000101B), ("srliw", 'I', 0x0000501B), ("sraiw", 'I', 0x4000501B),
   ("sb", 'S', 0x00000023), ("sh", 'S', 0x00001023), ("sw", 'S', 0x00002023),
   ("sd", 'S', 0x00003023), ("add", 'R', 0x00000033), ("sub", 'R', 0x40000033),
   ("sll", 'R', 0x00001033), ("slt", 'R', 0x00002033), ("sltu", 'R', 0x00003033),
   ("xor", 'R', 0x00004033), ("srl", 'R', 0x00005033), ("sra", 'R', 0x40005033),
   ("or", 'R', 0x00006033), ("and", 'R', 0x00007033), ("mul", 'R', 0x02000033),
   ("mulh", 'R', 0x02002033), ("mulhsu", 'R', 0x02002033), ("mulhu", 'R', 0x02003033),
   ("div", 'R', 0x02004033), ("divu", 'R', 0x02005033), ("rem", 'R', 0x02006033),
   ("remu", 'R', 0x02007033), ("lui", 'U', 0x00000037), ("addw", 'R', 0x0000003B),
   ("subw", 'R', 0x4000003B), ("sllw", 'R', 0x0000103B), ("srlw", 'R', 0x0000503B),
   ("sraw", 'R', 0x4000503B), ("mulw", 'R', 0x0200003B), ("divw", 'R', 0x0200403B),
   ("divuw", 'R', 0x0200503B), ("remw", 'R', 0x0200603B), ("remuw", 'R', 0x0200703B),
   ("beq", 'B', 0x00000063), ("bne", 'B', 0x00001063), ("blt", 'B', 0x00004063),
   ("bge", 'B', 0x00005063), ("bltu", 'B', 0x00006063), ("bgeu", 'B', 0x00007063),
   ("jalr", 'I', 0x00000067), ("jal", 'J', 0x0000006F)]

/-- First-match association lookup, mirroring the `if/else if` chain. -/
def tblLookup : List (String × Char × Nat) → String → Option (Char × Nat)
  | [], _ => none
  | (k, f, b) :: r, s => if s = k then some (f, b) else tblLookup r s

/-- `risc_v_assembler::getOpcode`; `none` models the `abort()` on an
unrecognized mnemonic. -/
def getOpcode (s : String) : Option (Char × Nat) := tblLookup opTable s

/-- `risc_v_assembler::makeLabel`: `labels[name] = pos` (overwrites, as far
as lookups can observe). -/
def makeLabel (name : String) (pos : Nat) (m : List (String × Nat)) :
    List (String × Nat) := (name, pos) :: m

/-- `risc_v_assembler::findLabelPos`: lookup, `none` models the `abort()` on
an undefined label. -/
def findLabelPos (name : String) : List (String × Nat) → Option Nat
  | [] => none
  | (k, v) :: r => if name = k then some v else findLabelPos name r

/-- Value of a run of decimal digits. -/
def digitsVal (l : List Char) : Nat := l.foldl (fun a c => a * 10 + (c.toNat - 48)) 0

/-- Hex digit predicate of `strtol` base 16. -/
def isHexC (c : Char) : Bool :=
  digitC c || decide ('a' ≤ c ∧ c ≤ 'f') || decide ('A' ≤ c ∧ c ≤ 'F')

/-- Value of one hex digit. -/
def hexValC (c : Char) : Nat :=
  if digitC c then c.toNat - 48
  else if decide ('a' ≤ c ∧ c ≤ 'f') then c.toNat - 87
  else c.toNat - 55

/-- Value of a run of hex digits. -/
def hexDigitsVal (l : List Char) : Nat := l.foldl (fun a c => a * 16 + hexValC c) 0

/-- The optional sign accepted by `strtol`: returns (negative?, remainder). -/
def signSplit (s : List Char) : Bool × List Char :=
  match s with
  | [] => (false, [])
  | c :: r => if c = '-' then (true, r) else if c = '+' then (false, r) else (false, c :: r)

/-- `std::stoi(temp, nullptr)` (base 10): skip whitespace, optional sign,
maximal run of decimal digits (`none` when empty: `invalid_argument`), result
must fit in `int` (`none` otherwise: `out_of_range`). -/
def stoiDec (t : List Char) : Option Int :=
  let s := t.dropWhile isWsC
  let p := signSplit s
  let ds := p.2.takeWhile digitC
  if ds = [] then none
  else
    let v : Int := if p.1 then -(digitsVal ds : Int) else (digitsVal ds : Int)
    if v < -(2 ^ 31) ∨ (2 ^ 31 : Int) ≤ v then none else some v

/-- `std::stoi(temp, nullptr, 16)`: as `stoiDec` but base 16 with an optional
`0x`/`0X` prefix, which `strtol` consumes only when a hex digit follows
(otherwise the leading `0` itself is the parsed number). -/
def stoiHex (t : List Char) : Option Int :=
  let s := t.dropWhile isWsC
  let p := signSplit s
  let s3 : List Char :=
    match p.2 with
    | c1 :: c2 :: r =>
      if c1 = '0' ∧ (c2 = 'x' ∨ c2 = 'X') ∧ isHexC (headD r) = true then r else p.2
    | _ => p.2
  let ds := s3.takeWhile isHexC
  if ds = [] then none
  else
    let v : Int := if p.1 then -(hexDigitsVal ds : Int) else (hexDigitsVal ds : Int)
    if v < -(2 ^ 31) ∨ (2 ^ 31 : Int) ≤ v then none else some v

/-- The bit pattern of an `int` value as a 32-bit unsigned number. -/
def intToW32 (v : Int) : Nat := (v.emod (2 ^ 32)).toNat

/-- The bit pattern of an integer as a 64-bit unsigned number. -/
def w64 (v : Int) : Nat := (v.emod (2 ^ 64)).toNat

/-- `findLabelPos(temp) - pos` on `uint64_t`: the displacement in instruction
units, as a 64-bit two's-complement pattern. -/
def disp64 (iL pos : Nat) : Nat := w64 ((iL : Int) - (pos : Int))

/-- Field extraction on an `int`: `(v >> sh) & mask` with arithmetic right
shift (`mask + 1` a power of two). -/
def iBits (v : Int) (sh : Nat) (mask : Nat) : Nat :=
  ((v.ediv (2 ^ sh)).emod ((mask : Int) + 1)).toNat

/-- B-format immediate split of an `int` value (the `stoi` branches of case
`'B'`), as a 32-bit pattern. -/
def bSplitI (v : Int) : Nat :=
  ((iBits v 11 0x1) <<< 7) ||| ((iBits v 1 0xf) <<< 8) |||
  ((iBits v 5 0x3f) <<< 25) ||| ((iBits v 12 0x1) <<< 31)

/-- J-format immediate split of an `int` value (the `stoi` branches of case
`'J'`), as a 32-bit pattern. -/
def jSplitI (v : Int) : Nat :=
  ((iBits v 20 0x1) <<< 31) ||| ((iBits v 1 0x3ff) <<< 21) |||
  ((iBits v 11 0x1) <<< 20) ||| ((iBits v 12 0xff) <<< 12)

/-- S-format immediate split of an `int` value:
`((v & 0b11111) << 7) | ((v & ~0b11111) << 20)` as a 32-bit pattern. -/
def sSplitI (v : Int) : Nat :=
  ((intToW32 v &&& 0x1f) <<< 7) ||| (((intToW32 v &&& (2 ^ 32 - 32)) <<< 20) % 2 ^ 32)

/-- B-format immediate split of a `uint64_t` displacement (the label branch
of case `'B'`). -/
def bSplitU (d : Nat) : Nat :=
  (((d >>> 11) &&& 0x1) <<< 7) ||| (((d >>> 1) &&& 0xf) <<< 8) |||
  (((d >>> 5) &&& 0x3f) <<< 25) ||| (((d >>> 12) &&& 0x1) <<< 31)

/-- J-format immediate split of a `uint64_t` displacement (the label branch
of case `'J'`). -/
def jSplitU (d : Nat) : Nat :=
  (((d >>> 20) &&& 0x1) <<< 31) ||| (((d >>> 1) &&& 0x3ff) <<< 21) |||
  (((d >>> 11) &&& 0x1) <<< 20) ||| (((d >>> 12) &&& 0xff) <<< 12)

/-- S-format immediate split of a `uint64_t` displacement:
`((d & 0b11111) << 7) | ((d & ~0b11111) << 20)` in 64 bits. -/
def sSplitU (d : Nat) : Nat :=
  ((d &&& 0x1f) <<< 7) ||| (((d &&& (2 ^ 64 - 32)) <<< 20) % 2 ^ 64)

/-- The `0x`-prefix test on the token:
`temp.size() >= 2 && temp.at(0) == '0' && temp.at(1) == 'x'`. -/
def hexTokB (t : List Char) : Bool :=
  match t with
  | c1 :: c2 :: _ => c1 == '0' && c2 == 'x'
  | _ => false

/-- The tail of `processLine`: one more `ss >> temp`; abort (`none`) when it
succeeds with a non-comment token, otherwise return the instruction word. -/
def finishLine (st : SState) (t : List Char) (instr : Nat) : Option Nat :=
  match extract st t with
  | (st5, t5) => if st5.failb = false ∧ headD t5 ≠ '#' then none else some instr

/-- Case `'I'` of `processLine`: `rd` (comma-stripped) at bit 7, `rs1` at
bit 15, then the immediate: `0x` hex / leading digit decimal (`(stoi << 20)`
on `int`) / label (`(findLabelPos(temp) - pos) << 20` on `uint64_t`). -/
def iBody (lbls : List (String × Nat)) (pos base : Nat) (st : SState)
    (t : List Char) : Option Nat :=
  match getRegister t.dropLast 7 with
  | none => none
  | some v1 =>
    match extract st t with
    | (st4, t4) =>
      if st4.failb = true ∨ headD t4 = '#' then none else
      match getRegister t4.dropLast 15 with
      | none => none
      | some v2 =>
        match extract st4 t4 with
        | (st5, t5) =>
          if st5.failb = true ∨ headD t5 = '#' then none else
          if hexTokB t5 then
            match stoiHex t5 with
            | none => none
            | some v =>
              finishLine st5 t5 (((base ||| v1) ||| v2) ||| ((intToW32 v <<< 20) % 2 ^ 32))
          else if digitC (headD t5) then
            match stoiDec t5 with
            | none => none
            | some v =>
              finishLine st5 t5 (((base ||| v1) ||| v2) ||| ((intToW32 v <<< 20) % 2 ^ 32))
          else
            match findLabelPos (String.mk t5) lbls with
            | none => none
            | some iL =>
              finishLine st5 t5
                (((((base ||| v1) ||| v2) ||| ((disp64 iL pos <<< 20) % 2 ^ 64)) % 2 ^ 32))

/-- Case `'U'` of `processLine`: `rd` at bit 7, immediate shifted to bit 12. -/
def uBody (lbls : List (String × Nat)) (pos base : Nat) (st : SState)
    (t : List Char) : Option Nat :=
  match getRegister t.dropLast 7 with
  | none => none
  | some v1 =>
    match extract st t with
    | (st4, t4) =>
      if st4.failb = true ∨ headD t4 = '#' then none else
      if hexTokB t4 then
        match stoiHex t4 with
        | none => none
        | some v =>
          finishLine st4 t4 ((base ||| v1) ||| ((intToW32 v <<< 12) % 2 ^ 32))
      else if digitC (headD t4) then
        match stoiDec t4 with
        | none => none
        | some v =>
          finishLine st4 t4 ((base ||| v1) ||| ((intToW32 v <<< 12) % 2 ^ 32))
      else
        match findLabelPos (String.mk t4) lbls with
        | none => none
        | some iL =>
          finishLine st4 t4 ((((base ||| v1) ||| ((disp64 iL pos <<< 12) % 2 ^ 64)) % 2 ^ 32))

/-- Case `'R'` of `processLine`: `rd` at 7, `rs1` at 15, `rs2` (not
comma-stripped) at 20. -/
def rBody (base : Nat) (st : SState) (t : List Char) : Option Nat :=
  match getRegister t.dropLast 7 with
  | none => none
  | some v1 =>
    match extract st t with
    | (st4, t4) =>
      if st4.failb = true ∨ headD t4 = '#' then none else
      match getRegister t4.dropLast 15 with
      | none => none
      | some v2 =>
        match extract st4 t4 with
        | (st5, t5) =>
          if st5.failb = true ∨ headD t5 = '#' then none else
          match getRegister t5 20 with
          | none => none
          | some v3 => finishLine st5 t5 (((base ||| v1) ||| v2) ||| v3)

/-- Case `'S'` of `processLine`: first operand at bit 15, second at bit 20,
then the split immediate. -/
def sBody (lbls : List (String × Nat)) (pos base : Nat) (st : SState)
    (t : List Char) : Option Nat :=
  match getRegister t.dropLast 15 with
  | none => none
  | some v1 =>
    match extract st t with
    | (st4, t4) =>
      if st4.failb = true ∨ headD t4 = '#' then none else
      match getRegister t4.dropLast 20 with
      | none => none
      | some v2 =>
        match extract st4 t4 with
        | (st5, t5) =>
          if st5.failb = true ∨ headD t5 = '#' then none else
          if hexTokB t5 then
            match stoiHex t5 with
            | none => none
            | some v => finishLine st5 t5 (((base ||| v1) ||| v2) ||| sSplitI v)
          else if digitC (headD t5) then
            match stoiDec t5 with
            | none => none
            | some v => finishLine st5 t5 (((base ||| v1) ||| v2) ||| sSplitI v)
          else
            match findLabelPos (String.mk t5) lbls with
            | none => none
            | some iL =>
              finishLine st5 t5 (((((base ||| v1) ||| v2) ||| sSplitU (disp64 iL pos)) % 2 ^ 32))

/-- Case `'J'` of `processLine`: the register operand at bit 15 (as in the
source), then the J-split immediate; NOTE the decimal test reads
`input.at(0)`, the first character of the whole line. -/
def jBody (input : List Char) (lbls : List (String × Nat)) (pos base : Nat)
    (st : SState) (t : List Char) : Option Nat :=
  match getRegister t.dropLast 15 with
  | none => none
  | some v1 =>
    match extract st t with
    | (st4, t4) =>
      if st4.failb = true ∨ headD t4 = '#' then none else
      if hexTokB t4 then
        match stoiHex t4 with
        | none => none
        | some v => finishLine st4 t4 ((base ||| v1) ||| jSplitI v)
      else if digitC (headD input) then
        match stoiDec t4 with
        | none => none
        | some v => finishLine st4 t4 ((base ||| v1) ||| jSplitI v)
      else
        match findLabelPos (String.mk t4) lbls with
        | none => none
        | some iL =>
          finishLine st4 t4 ((((base ||| v1) ||| jSplitU (disp64 iL pos)) % 2 ^ 32))

/-- Case `'B'` of `processLine`: operands at bits 15 and 20, then the B-split
immediate; NOTE the decimal test reads `input.at(0)`, the first character of
the whole line. -/
def bBody (input : List Char) (lbls : List (String × Nat)) (pos base : Nat)
    (st : SState) (t : List Char) : Option Nat :=
  match getRegister t.dropLast 15 with
  | none => none
  | some v1 =>
    match extract st t with
    | (st4, t4) =>
      if st4.failb = true ∨ headD t4 = '#' then none else
      match getRegister t4.dropLast 20 with
      | none => none
      | some v2 =>
        match extract st4 t4 with
        | (st5, t5) =>
          if st5.failb = true ∨ headD t5 = '#' then none else
          if hexTokB t5 then
            match stoiHex t5 with
            | none => none
            | some v => finishLine st5 t5 (((base ||| v1) ||| v2) ||| bSplitI v)
          else if digitC (headD input) then
            match stoiDec t5 with
            | none => none
            | some v => finishLine st5 t5 (((base ||| v1) ||| v2) ||| bSplitI v)
          else
            match findLabelPos (String.mk t5) lbls with
            | none => none
            | some iL =>
              finishLine st5 t5 (((((base ||| v1) ||| v2) ||| bSplitU (disp64 iL pos)) % 2 ^ 32))

/-- `risc_v_assembler::processLine`: assemble one line at instruction index
`pos`; `some 0` is the "nothing to emit" result, `none` models `abort()`. -/
def processLineL (input : List Char) (lbls : List (String × Nat)) (pos : Nat) :
    Option Nat :=
  match extract ⟨input, false, false⟩ [] with
  | (st1, t1) =>
    if t1.length = 0 ∨ headD t1 = '#' then some 0 else
    match (if lastD t1 = ':' then extract st1 t1 else (st1, t1)) with
    | (st2, t2) =>
      if st2.failb = true then some 0 else
      if headD t2 = '#' then some 0 else
      match getOpcode (String.mk t2) with
      | none => none
      | some (fmt, base) =>
        match extract st2 t2 with
        | (st3, t3) =>
          if st3.failb = true ∨ headD t3 = '#' then none else
          if fmt = 'I' then iBody lbls pos base st3 t3
          else if fmt = 'U' then uBody lbls pos base st3 t3
          else if fmt = 'R' then rBody base st3 t3
          else if fmt = 'S' then sBody lbls pos base st3 t3
          else if fmt = 'J' then jBody input lbls pos base st3 t3
          else if fmt = 'B' then bBody input lbls pos base st3 t3
          else none

/-- `processLine` on a source line given as a string. -/
def processLine (input : String) (lbls : List (String × Nat)) (pos : Nat) :
    Option Nat := processLineL input.data lbls pos

/-- State of the pass 1 loop: the label map, the instruction counter `i`, the
`stringstream` flags (which `ss_input.str(input)` does NOT clear), and the
current contents of `temp` (which a failed extraction leaves unchanged). -/
structure P1 where
  labels : List (String × Nat)
  idx : Nat
  eofb : Bool
  failb : Bool
  temp : List Char
  deriving Repr, DecidableEq

/-- One iteration of the pass 1 loop body on one source line. -/
def pass1Step (st : P1) (line : String) : P1 :=
  match extract ⟨line.data, st.eofb, st.failb⟩ st.temp with
  | (s1, t1) =>
    if t1.length ≠ 0 ∧ lastD t1 = ':' then
      let labels1 := makeLabel (String.mk t1.dropLast) st.idx st.labels
      match extract s1 t1 with
      | (s2, t2) =>
        if ¬(t2.length ≠ 0 ∧ s2.failb = false) ∨ (t2.length ≠ 0 ∧ headD t2 = '#') then
          ⟨labels1, st.idx, s2.eofb, s2.failb, t2⟩
        else
          ⟨labels1, st.idx + 1, s2.eofb, s2.failb, t2⟩
    else ⟨st.labels, st.idx + 1, s1.eofb, s1.failb, t1⟩

/-- The pass 1 loop: runs while the (reused) `stringstream` has not failed. -/
def pass1Go : List String → P1 → List (String × Nat)
  | [], st => st.labels
  | l :: rest, st => if st.failb = true then st.labels else pass1Go rest (pass1Step st l)

/-- Pass 1 of `risc_v_assembler::process` on the list of source lines. -/
def pass1 (lines : List String) : List (String × Nat) :=
  pass1Go lines ⟨[], 1, false, false, []⟩

/-- Uppercase hex digits. -/
def hexChars : List Char :=
  ['0', '1', '2', '3', '4', '5', '6', '7', '8', '9', 'A', 'B', 'C', 'D', 'E', 'F']

/-- One output hex digit. -/
def hexDig (n : Nat) : Char := hexChars.getD (n &&& 0xf) '0'

/-- `fprintf(fout, "%.8X\n", instruction)` without the newline: a `uint32_t`
printed as exactly eight uppercase, zero-padded hex digits. -/
def toHex8 (w : Nat) : List Char :=
  [hexDig (w >>> 28), hexDig (w >>> 24), hexDig (w >>> 20), hexDig (w >>> 16),
   hexDig (w >>> 12), hexDig (w >>> 8), hexDig (w >>> 4), hexDig w]

/-- Pass 2 of `risc_v_assembler::process`: encode each line at index `i`; a
zero word is not emitted and does not advance `i`; `none` propagates any
`abort()` from `processLine`.  The result is the list of output lines
(without their trailing newlines). -/
def pass2 : List String → List (String × Nat) → Nat → Option (List String)
  | [], _, _ => some []
  | l :: rest, lbls, i =>
    match processLine l lbls i with
    | none => none
    | some w =>
      if w = 0 then pass2 rest lbls i
      else
        match pass2 rest lbls (i + 1) with
        | none => none
        | some out => some (String.mk (toHex8 w) :: out)

/-- `risc_v_assembler::process` on the list of source lines (file I/O is out
of scope): pass 1 then pass 2. -/
def process (lines : List String) : Option (List String) :=
  pass2 lines (pass1 lines) 1

/-! Helper lemmas about token extraction on symbolic tokens. -/

theorem takeWhile_all (p : Char → Bool) (l : List Char) (h : ∀ c ∈ l, p c = true) :
    l.takeWhile p = l := by
  induction l with
  | nil => rfl
  | cons a l ih =>
    rw [List.takeWhile_cons, if_pos (h a (List.mem_cons_self a l)),
      ih (fun c hc => h c (List.mem_cons_of_mem a hc))]

theorem dropWhile_all (p : Char → Bool) (l : List Char) (h : ∀ c ∈ l, p c = true) :
    l.dropWhile p = [] := by
  induction l with
  | nil => rfl
  | cons a l ih =>
    rw [List.dropWhile_cons, if_pos (h a (List.mem_cons_self a l))]
    exact ih fun c hc => h c (List.mem_cons_of_mem a hc)

theorem takeWhile_all_append (p : Char → Bool) (l₁ l₂ : List Char)
    (h : ∀ c ∈ l₁, p c = true) :
    (l₁ ++ l₂).takeWhile p = l₁ ++ l₂.takeWhile p := by
  induction l₁ with
  | nil => rfl
  | cons a l ih =>
    rw [List.cons_append, List.takeWhile_cons, if_pos (h a (List.mem_cons_self a l)),
      ih (fun c hc => h c (List.mem_cons_of_mem a hc)), List.cons_append]

theorem dropWhile_all_append (p : Char → Bool) (l₁ l₂ : List Char)
    (h : ∀ c ∈ l₁, p c = true) :
    (l₁ ++ l₂).dropWhile p = l₂.dropWhile p := by
  induction l₁ with
  | nil => rfl
  | cons a l ih =>
    rw [List.cons_append, List.dropWhile_cons, if_pos (h a (List.mem_cons_self a l))]
    exact ih fun c hc => h c (List.mem_cons_of_mem a hc)

theorem headD_append (l₁ l₂ : List Char) (h : l₁ ≠ []) :
    headD (l₁ ++ l₂) = headD l₁ := by
  cases l₁ with
  | nil => exact absurd rfl h
  | cons a l => rfl

/-- Extracting a token followed by a space: the token is read, the space is
left in the stream, no flag is set. -/
theorem extract_tok (tk rest t : List Char) (h1 : tk ≠ [])
    (h2 : ∀ c ∈ tk, isWsC c = false) :
    extract ⟨tk ++ ' ' :: rest, false, false⟩ t = (⟨' ' :: rest, false, false⟩, tk) := by
  cases tk with
  | nil => exact absurd rfl h1
  | cons c cs =>
    have hc : isWsC c = false := h2 c (List.mem_cons_self c cs)
    have hcs : ∀ a ∈ cs, (fun a => !isWsC a) a = true := by
      intro a ha
      simp [h2 a (List.mem_cons_of_mem c ha)]
    unfold extract
    rw [List.cons_append, List.dropWhile_cons]
    simp only [hc, Bool.false_eq_true, if_false, reduceIte]
    rw [List.takeWhile_cons, List.dropWhile_cons]
    simp only [hc, Bool.not_false, if_true, reduceIte]
    rw [takeWhile_all_append _ cs (' ' :: rest) hcs,
      dropWhile_all_append _ cs (' ' :: rest) hcs]
    simp [isWsC]

/-- Extracting the final token of a line: the token is read and `eofbit` is
set. -/
theorem extract_fin (tk t : List Char) (h1 : tk ≠ [])
    (h2 : ∀ c ∈ tk, isWsC c = false) :
    extract ⟨tk, false, false⟩ t = (⟨[], true, false⟩, tk) := by
  cases tk with
  | nil => exact absurd rfl h1
  | cons c cs =>
    have hc : isWsC c = false := h2 c (List.mem_cons_self c cs)
    have hcs : ∀ a ∈ cs, (fun a => !isWsC a) a = true := by
      intro a ha
      simp [h2 a (List.mem_cons_of_mem c ha)]
    unfold extract
    rw [List.dropWhile_cons]
    simp only [hc, Bool.false_eq_true, if_false, reduceIte]
    rw [List.takeWhile_cons, List.dropWhile_cons]
    simp only [hc, Bool.not_false, if_true, reduceIte]
    rw [takeWhile_all _ cs hcs, dropWhile_all _ cs hcs]
    simp

/-- A leading space is skipped by extraction. -/
theorem extract_ws (l t : List Char) :
    extract ⟨' ' :: l, false, false⟩ t = extract ⟨l, false, false⟩ t := by
  unfold extract
  rw [List.dropWhile_cons]
  simp [isWsC]

/-- Extraction with `eofbit` already set: the sentry fails, `failbit` is set,
`temp` is unchanged. -/
theorem extract_eof (r t : List Char) :
    extract ⟨r, true, false⟩ t = (⟨r, true, true⟩, t) := by
  unfold extract
  simp

/-- Extracting a comma-terminated operand token followed by a space. -/
theorem extract_tok_comma (tk rest t : List Char)
    (h2 : ∀ c ∈ tk, isWsC c = false) :
    extract ⟨tk ++ ',' :: ' ' :: rest, false, false⟩ t
      = (⟨' ' :: rest, false, false⟩, tk ++ [',']) := by
  have he : tk ++ ',' :: ' ' :: rest = (tk ++ [',']) ++ ' ' :: rest := by simp
  rw [he]
  refine extract_tok _ _ _ (by simp) ?_
  intro c hc
  rcases List.mem_append.mp hc with h | h
  · exact h2 c h
  · rw [List.mem_singleton.mp h]
    decide

theorem digit_not_ws (c : Char) (h : digitC c = true) : isWsC c = false := by
  by_contra h2
  rw [Bool.not_eq_false] at h2
  simp only [isWsC, Bool.or_eq_true, beq_iff_eq] at h2
  rcases h2 with ((((h2 | h2) | h2) | h2) | h2) | h2 <;>
    (subst h2; exact absurd h (by decide))

theorem digit_ne (c d : Char) (h : digitC c = true) (hd : digitC d = false) :
    c ≠ d := by
  intro he
  subst he
  rw [h] at hd
  cases hd

theorem headD_digit (ds : List Char) (h1 : ds ≠ []) (h : ∀ c ∈ ds, digitC c = true) :
    digitC (headD ds) = true := by
  cases ds with
  | nil => exact absurd rfl h1
  | cons d r => exact h d (List.mem_cons_self d r)

theorem headD_not_comment (ds : List Char) (h1 : ds ≠ [])
    (h : ∀ c ∈ ds, digitC c = true) : headD ds ≠ '#' := by
  have := headD_digit ds h1 h
  exact digit_ne _ _ this (by decide)

theorem digits_not_ws (ds : List Char) (h : ∀ c ∈ ds, digitC c = true) :
    ∀ c ∈ ds, isWsC c = false := fun c hc => digit_not_ws c (h c hc)

theorem digits_hexTok (ds : List Char) (h : ∀ c ∈ ds, digitC c = true) :
    hexTokB ds = false := by
  match ds with
  | [] => rfl
  | [c] => rfl
  | c1 :: c2 :: r =>
    have h2 : digitC c2 = true := h c2 (by simp)
    have : c2 ≠ 'x' := digit_ne _ _ h2 (by decide)
    simp [hexTokB, this]

theorem digits_stoiDec (ds : List Char) (h1 : ds ≠ [])
    (h : ∀ c ∈ ds, digitC c = true) (hb : digitsVal ds < 2 ^ 31) :
    stoiDec ds = some ((digitsVal ds : Int)) := by
  cases ds with
  | nil => exact absurd rfl h1
  | cons d r =>
    have hd : digitC d = true := h d (List.mem_cons_self d r)
    have hdrop : (d :: r).dropWhile isWsC = d :: r := by
      rw [List.dropWhile_cons, if_neg]
      rw [digit_not_ws d hd]
      exact Bool.false_ne_true
    have hsign : signSplit (d :: r) = (false, d :: r) := by
      simp only [signSplit]
      rw [if_neg (digit_ne _ _ hd (by decide)), if_neg (digit_ne _ _ hd (by decide))]
    have htake : (d :: r).takeWhile digitC = d :: r := takeWhile_all _ _ h
    have hv1 : (0 : Int) ≤ (digitsVal (d :: r) : Int) := Int.natCast_nonneg _
    have hv2 : ((digitsVal (d :: r) : Int)) < 2 ^ 31 := by exact_mod_cast hb
    have hrange : ¬(((digitsVal (d :: r) : Int)) < -2 ^ 31 ∨
        (2 ^ 31 : Int) ≤ ((digitsVal (d :: r) : Int))) := by
      push_neg
      refine ⟨le_trans (by norm_num) hv1, hv2⟩
    simp only [stoiDec, hdrop, hsign, htake, List.cons_ne_nil, Bool.false_eq_true,
      if_false, reduceIte, hrange]

theorem intToW32_ofNat (n : Nat) (h : n < 2 ^ 32) : intToW32 (n : Int) = n := by
  show ((n : Int) % 2 ^ 32).toNat = n
  rw [Int.emod_eq_of_lt (Int.natCast_nonneg n) (by exact_mod_cast h)]
  exact Int.toNat_natCast n

theorem disp64_modEq (iL pos : Nat) :
    (disp64 iL pos : Int) ≡ (iL : Int) - (pos : Int) [ZMOD (2 ^ 64 : Int)] := by
  show ((disp64 iL pos : Nat) : Int) % 2 ^ 64 = ((iL : Int) - pos) % 2 ^ 64
  have he : ((disp64 iL pos : Nat) : Int) = ((iL : Int) - pos) % 2 ^ 64 := by
    show ((((iL : Int) - pos) % (2 ^ 64)).toNat : Int) = _
    rw [Int.toNat_of_nonneg (Int.emod_nonneg _ (by norm_num))]
  rw [he, Int.emod_emod_of_dvd _ dvd_rfl]

/-- The label branch of case `'B'`, after the two register operands have
been read symbolically. -/
theorem bBody_label (input : List Char) (lbls : List (String × Nat))
    (pos base : Nat) (r1 r2 L : List Char) (v1 v2 iL : Nat)
    (hr2 : r2 ≠ []) (hr2w : ∀ c ∈ r2, isWsC c = false) (hr2h : headD r2 ≠ '#')
    (hL : L ≠ []) (hLw : ∀ c ∈ L, isWsC c = false) (hLh : headD L ≠ '#')
    (hLx : hexTokB L = false) (hid : digitC (headD input) = false)
    (hg1 : getRegister r1 15 = some v1) (hg2 : getRegister r2 20 = some v2)
    (hf : findLabelPos (String.mk L) lbls = some iL) :
    bBody input lbls pos base ⟨' ' :: (r2 ++ ',' :: ' ' :: L), false, false⟩ (r1 ++ [','])
      = some ((((base ||| v1) ||| v2) ||| bSplitU (disp64 iL pos)) % 2 ^ 32) := by
  unfold bBody
  rw [List.dropLast_concat, hg1]
  simp only []
  rw [extract_ws, extract_tok_comma r2 L (r1 ++ [',']) hr2w]
  simp only [headD_append r2 [','] hr2, hr2h, Bool.false_eq_true, false_or, or_false,
    if_false, reduceIte]
  rw [List.dropLast_concat, hg2]
  simp only []
  rw [extract_ws, extract_fin L (r2 ++ [',']) hL hLw]
  simp only [hLh, hLx, hid, hf, Bool.false_eq_true, false_or, or_false, if_false,
    reduceIte]
  unfold finishLine
  rw [extract_eof]
  simp

/-- The label branch of case `'J'`, after the register operand has been read
symbolically. -/
theorem jBody_label (input : List Char) (lbls : List (String × Nat))
    (pos base : Nat) (r1 L : List Char) (v1 iL : Nat)
    (hL : L ≠ []) (hLw : ∀ c ∈ L, isWsC c = false) (hLh : headD L ≠ '#')
    (hLx : hexTokB L = false) (hid : digitC (headD input) = false)
    (hg1 : getRegister r1 15 = some v1)
    (hf : findLabelPos (String.mk L) lbls = some iL) :
    jBody input lbls pos base ⟨' ' :: L, false, false⟩ (r1 ++ [','])
      = some (((base ||| v1) ||| jSplitU (disp64 iL pos)) % 2 ^ 32) := by
  unfold jBody
  rw [List.dropLast_concat, hg1]
  simp only []
  rw [extract_ws, extract_fin L (r1 ++ [',']) hL hLw]
  simp only [hLh, hLx, hid, hf, Bool.false_eq_true, false_or, or_false, if_false,
    reduceIte]
  unfold finishLine
  rw [extract_eof]
  simp

/-- The decimal branch of case `'I'`, after the two register operands have
been read symbolically. -/
theorem iBody_dec (lbls : List (String × Nat)) (pos base : Nat)
    (r1 r2 ds : List Char) (v1 v2 : Nat)
    (hr2 : r2 ≠ []) (hr2w : ∀ c ∈ r2, isWsC c = false) (hr2h : headD r2 ≠ '#')
    (hds : ds ≠ []) (hdsd : ∀ c ∈ ds, digitC c = true) (hb : digitsVal ds < 2 ^ 31)
    (hg1 : getRegister r1 7 = some v1) (hg2 : getRegister r2 15 = some v2) :
    iBody lbls pos base ⟨' ' :: (r2 ++ ',' :: ' ' :: ds), false, false⟩ (r1 ++ [','])
      = some (((base ||| v1) ||| v2) ||| ((digitsVal ds <<< 20) % 2 ^ 32)) := by
  unfold iBody
  rw [List.dropLast_concat, hg1]
  simp only []
  rw [extract_ws, extract_tok_comma r2 ds (r1 ++ [',']) hr2w]
  simp only [headD_append r2 [','] hr2, hr2h, Bool.false_eq_true, false_or, or_false,
    if_false, reduceIte]
  rw [List.dropLast_concat, hg2]
  simp only []
  rw [extract_ws, extract_fin ds (r2 ++ [',']) hds (digits_not_ws ds hdsd)]
  simp only [headD_not_comment ds hds hdsd, digits_hexTok ds hdsd,
    headD_digit ds hds hdsd, Bool.false_eq_true, false_or, or_false, if_false, if_true,
    reduceIte]
  rw [digits_stoiDec ds hds hdsd hb]
  simp only []
  rw [intToW32_ofNat _ (lt_trans hb (by norm_num))]
  unfold finishLine
  rw [extract_eof]
  simp

/-- Symbolic evaluation of `processLine` on a B-format line with a label
immediate. -/
theorem processLineL_B_label (m r1 r2 L : List Char) (b v1 v2 iL pos : Nat)
    (lbls : List (String × Nat))
    (hm : m ≠ []) (hmw : ∀ c ∈ m, isWsC c = false) (hmh : headD m ≠ '#')
    (hmc : lastD m ≠ ':') (hmd : digitC (headD m) = false)
    (hr1 : r1 ≠ []) (hr1w : ∀ c ∈ r1, isWsC c = false) (hr1h : headD r1 ≠ '#')
    (hr2 : r2 ≠ []) (hr2w : ∀ c ∈ r2, isWsC c = false) (hr2h : headD r2 ≠ '#')
    (hL : L ≠ []) (hLw : ∀ c ∈ L, isWsC c = false) (hLh : headD L ≠ '#')
    (hLx : hexTokB L = false)
    (hop : getOpcode (String.mk m) = some ('B', b))
    (hg1 : getRegister r1 15 = some v1) (hg2 : getRegister r2 20 = some v2)
    (hf : findLabelPos (String.mk L) lbls = some iL) :
    processLineL (m ++ (' ' :: (r1 ++ (',' :: (' ' :: (r2 ++ (',' :: (' ' :: L)))))))) lbls pos
      = some ((((b ||| v1) ||| v2) ||| bSplitU (disp64 iL pos)) % 2 ^ 32) := by
  have hid : digitC (headD
      (m ++ (' ' :: (r1 ++ (',' :: (' ' :: (r2 ++ (',' :: (' ' :: L))))))))) = false := by
    rw [headD_append _ _ hm]
    exact hmd
  unfold processLineL
  rw [extract_tok m _ [] hm hmw]
  simp only [List.length_eq_zero, hm, hmh, hmc, Bool.false_eq_true, false_or, or_false,
    if_false, reduceIte]
  rw [hop]
  simp only []
  rw [extract_ws, extract_tok_comma r1 _ m hr1w]
  simp only [headD_append r1 [','] hr1, hr1h, Bool.false_eq_true, false_or, or_false,
    if_false, reduceIte, show ('B' : Char) ≠ 'I' from by decide,
    show ('B' : Char) ≠ 'U' from by decide, show ('B' : Char) ≠ 'R' from by decide,
    show ('B' : Char) ≠ 'S' from by decide, show ('B' : Char) ≠ 'J' from by decide]
  exact bBody_label _ lbls pos b r1 r2 L v1 v2 iL hr2 hr2w hr2h hL hLw hLh hLx hid hg1
    hg2 hf

/-- Symbolic evaluation of `processLine` on a J-format line with a label
immediate. -/
theorem processLineL_J_label (m r1 L : List Char) (b v1 iL pos : Nat)
    (lbls : List (String × Nat))
    (hm : m ≠ []) (hmw : ∀ c ∈ m, isWsC c = false) (hmh : headD m ≠ '#')
    (hmc : lastD m ≠ ':') (hmd : digitC (headD m) = false)
    (hr1 : r1 ≠ []) (hr1w : ∀ c ∈ r1, isWsC c = false) (hr1h : headD r1 ≠ '#')
    (hL : L ≠ []) (hLw : ∀ c ∈ L, isWsC c = false) (hLh : headD L ≠ '#')
    (hLx : hexTokB L = false)
    (hop : getOpcode (String.mk m) = some ('J', b))
    (hg1 : getRegister r1 15 = some v1)
    (hf : findLabelPos (String.mk L) lbls = some iL) :
    processLineL (m ++ (' ' :: (r1 ++ (',' :: (' ' :: L))))) lbls pos
      = some (((b ||| v1) ||| jSplitU (disp64 iL pos)) % 2 ^ 32) := by
  have hid : digitC (headD (m ++ (' ' :: (r1 ++ (',' :: (' ' :: L)))))) = false := by
    rw [headD_append _ _ hm]
    exact hmd
  unfold processLineL
  rw [extract_tok m _ [] hm hmw]
  simp only [List.length_eq_zero, hm, hmh, hmc, Bool.false_eq_true, false_or, or_false,
    if_false, reduceIte]
  rw [hop]
  simp only []
  rw [extract_ws, extract_tok_comma r1 _ m hr1w]
  simp only [headD_append r1 [','] hr1, hr1h, Bool.false_eq_true, false_or, or_false,
    if_false, reduceIte, show ('J' : Char) ≠ 'I' from by decide,
    show ('J' : Char) ≠ 'U' from by decide, show ('J' : Char) ≠ 'R' from by decide,
    show ('J' : Char) ≠ 'S' from by decide]
  exact jBody_label _ lbls pos b r1 L v1 iL hL hLw hLh hLx hid hg1 hf

/-- Symbolic evaluation of `processLine` on an I-format line with a decimal
immediate. -/
theorem processLineL_I_dec (m r1 r2 ds : List Char) (b v1 v2 pos : Nat)
    (lbls : List (String × Nat))
    (hm : m ≠ []) (hmw : ∀ c ∈ m, isWsC c = false) (hmh : headD m ≠ '#')
    (hmc : lastD m ≠ ':')
    (hr1 : r1 ≠ []) (hr1w : ∀ c ∈ r1, isWsC c = false) (hr1h : headD r1 ≠ '#')
    (hr2 : r2 ≠ []) (hr2w : ∀ c ∈ r2, isWsC c = false) (hr2h : headD r2 ≠ '#')
    (hds : ds ≠ []) (hdsd : ∀ c ∈ ds, digitC c = true) (hb : digitsVal ds < 2 ^ 31)
    (hop : getOpcode (String.mk m) = some ('I', b))
    (hg1 : getRegister r1 7 = some v1) (hg2 : getRegister r2 15 = some v2) :
    processLineL (m ++ (' ' :: (r1 ++ (',' :: (' ' :: (r2 ++ (',' :: (' ' :: ds)))))))) lbls pos
      = some (((b ||| v1) ||| v2) ||| ((digitsVal ds <<< 20) % 2 ^ 32)) := by
  unfold processLineL
  rw [extract_tok m _ [] hm hmw]
  simp only [List.length_eq_zero, hm, hmh, hmc, Bool.false_eq_true, false_or, or_false,
    if_false, reduceIte]
  rw [hop]
  simp only []
  rw [extract_ws, extract_tok_comma r1 _ m hr1w]
  simp only [headD_append r1 [','] hr1, hr1h, Bool.false_eq_true, false_or, or_false,
    if_false, if_true, reduceIte]
  exact iBody_dec lbls pos b r1 r2 ds v1 v2 hr2 hr2w hr2h hds hdsd hb hg1 hg2

/-- C3: for every B- or J-format line whose immediate operand is a declared
label `L` bound to index `iL`, encoded at index `pos`, the value whose bits
are split into the immediate fields is `disp64 iL pos`, the two's-complement
64-bit representation of `iL - pos` (instruction units, not multiplied by 4),
and the split (`bSplitU` / `jSplitU`) is applied to that value. -/
theorem c3_label_disp :
    (∀ (m r1 r2 L : List Char) (b v1 v2 iL pos : Nat) (lbls : List (String × Nat)),
      m ≠ [] → (∀ c ∈ m, isWsC c = false) → headD m ≠ '#' → lastD m ≠ ':' →
      digitC (headD m) = false →
      r1 ≠ [] → (∀ c ∈ r1, isWsC c = false) → headD r1 ≠ '#' →
      r2 ≠ [] → (∀ c ∈ r2, isWsC c = false) → headD r2 ≠ '#' →
      L ≠ [] → (∀ c ∈ L, isWsC c = false) → headD L ≠ '#' → hexTokB L = false →
      getOpcode (String.mk m) = some ('B', b) →
      getRegister r1 15 = some v1 → getRegister r2 20 = some v2 →
      findLabelPos (String.mk L) lbls = some iL →
      processLineL (m ++ (' ' :: (r1 ++ (',' :: (' ' :: (r2 ++ (',' :: (' ' :: L))))))))
          lbls pos
        = some ((((b ||| v1) ||| v2) ||| bSplitU (disp64 iL pos)) % 2 ^ 32)
      ∧ (disp64 iL pos : Int) ≡ (iL : Int) - (pos : Int) [ZMOD (2 ^ 64 : Int)])
  ∧ (∀ (m r1 L : List Char) (b v1 iL pos : Nat) (lbls : List (String × Nat)),
      m ≠ [] → (∀ c ∈ m, isWsC c = false) → headD m ≠ '#' → lastD m ≠ ':' →
      digitC (headD m) = false →
      r1 ≠ [] → (∀ c ∈ r1, isWsC c = false) → headD r1 ≠ '#' →
      L ≠ [] → (∀ c ∈ L, isWsC c = false) → headD L ≠ '#' → hexTokB L = false →
      getOpcode (String.mk m) = some ('J', b) →
      getRegister r1 15 = some v1 →
      findLabelPos (String.mk L) lbls = some iL →
      processLineL (m ++ (' ' :: (r1 ++ (',' :: (' ' :: L))))) lbls pos
        = some (((b ||| v1) ||| jSplitU (disp64 iL pos)) % 2 ^ 32)
      ∧ (disp64 iL pos : Int) ≡ (iL : Int) - (pos : Int) [ZMOD (2 ^ 64 : Int)]) := by
  constructor
  · intro m r1 r2 L b v1 v2 iL pos lbls hm hmw hmh hmc hmd hr1 hr1w hr1h hr2 hr2w hr2h
      hL hLw hLh hLx hop hg1 hg2 hf
    exact ⟨processLineL_B_label m r1 r2 L b v1 v2 iL pos lbls hm hmw hmh hmc hmd hr1
      hr1w hr1h hr2 hr2w hr2h hL hLw hLh hLx hop hg1 hg2 hf, disp64_modEq iL pos⟩
  · intro m r1 L b v1 iL pos lbls hm hmw hmh hmc hmd hr1 hr1w hr1h hL hLw hLh hLx hop
      hg1 hf
    exact ⟨processLineL_J_label m r1 L b v1 iL pos lbls hm hmw hmh hmc hmd hr1 hr1w
      hr1h hL hLw hLh hLx hop hg1 hf, disp64_modEq iL pos⟩

/-- C3 (witness): the B-part applied to the concrete line
`beq x1, x2, loop` with `loop` bound to 5, encoded at index 2. -/
theorem c3_label_disp_witness :
    processLineL ("beq".data ++ (' ' :: ("x1".data ++ (',' :: (' ' ::
        ("x2".data ++ (',' :: (' ' :: "loop".data))))))) ) [("loop", 5)] 2
      = some ((((0x63 ||| 0x8000) ||| 0x200000) ||| bSplitU (disp64 5 2)) % 2 ^ 32)
    ∧ (disp64 5 2 : Int) ≡ (5 : Int) - (2 : Int) [ZMOD (2 ^ 64 : Int)] :=
  c3_label_disp.1 "beq".data "x1".data "x2".data "loop".data 0x63 0x8000 0x200000 5 2
    [("loop", 5)] (by decide) (by decide) (by decide) (by decide) (by decide)
    (by decide) (by decide) (by decide) (by decide) (by decide) (by decide)
    (by decide) (by decide) (by decide) (by decide) (by decide) (by decide)
    (by decide) (by decide)

theorem hex_not_ws (c : Char) (h : isHexC c = true) : isWsC c = false := by
  by_contra h2
  rw [Bool.not_eq_false] at h2
  simp only [isWsC, Bool.or_eq_true, beq_iff_eq] at h2
  rcases h2 with ((((h2 | h2) | h2) | h2) | h2) | h2 <;>
    (subst h2; exact absurd h (by decide))

theorem hex_stoiHex (hs : List Char) (h1 : hs ≠ []) (h : ∀ c ∈ hs, isHexC c = true)
    (hb : hexDigitsVal hs < 2 ^ 31) :
    stoiHex ('0' :: 'x' :: hs) = some ((hexDigitsVal hs : Int)) := by
  have hdrop : ('0' :: 'x' :: hs).dropWhile isWsC = '0' :: 'x' :: hs := by
    rw [List.dropWhile_cons, if_neg]
    rw [show isWsC '0' = false from by decide]
    exact Bool.false_ne_true
  have hsign : signSplit ('0' :: 'x' :: hs) = (false, '0' :: 'x' :: hs) := by
    simp only [signSplit]
    rw [if_neg (by decide), if_neg (by decide)]
  have hhead : isHexC (headD hs) = true := by
    cases hs with
    | nil => exact absurd rfl h1
    | cons a r => exact h a (List.mem_cons_self a r)
  have htake : hs.takeWhile isHexC = hs := takeWhile_all _ _ h
  have hrange : ¬(((hexDigitsVal hs : Int)) < -2 ^ 31 ∨
      (2 ^ 31 : Int) ≤ ((hexDigitsVal hs : Int))) := by
    push_neg
    refine ⟨le_trans (by norm_num) (Int.natCast_nonneg _), by exact_mod_cast hb⟩
  simp only [stoiHex, hdrop, hsign, hhead, eq_self_iff_true, true_and, true_or,
    and_true, if_true, reduceIte, htake, h1, Bool.false_eq_true, if_false, hrange]

/-- The hex branch of case `'I'`, after the two register operands have been
read symbolically. -/
theorem iBody_hex (lbls : List (String × Nat)) (pos base : Nat)
    (r1 r2 hs : List Char) (v1 v2 : Nat)
    (hr2 : r2 ≠ []) (hr2w : ∀ c ∈ r2, isWsC c = false) (hr2h : headD r2 ≠ '#')
    (hhs : hs ≠ []) (hhsx : ∀ c ∈ hs, isHexC c = true) (hb : hexDigitsVal hs < 2 ^ 31)
    (hg1 : getRegister r1 7 = some v1) (hg2 : getRegister r2 15 = some v2) :
    iBody lbls pos base ⟨' ' :: (r2 ++ ',' :: ' ' :: ('0' :: 'x' :: hs)), false, false⟩
        (r1 ++ [','])
      = some (((base ||| v1) ||| v2) ||| ((hexDigitsVal hs <<< 20) % 2 ^ 32)) := by
  have htokw : ∀ c ∈ '0' :: 'x' :: hs, isWsC c = false := by
    intro c hc
    rcases List.mem_cons.mp hc with rfl | hc
    · decide
    rcases List.mem_cons.mp hc with rfl | hc
    · decide
    exact hex_not_ws c (hhsx c hc)
  unfold iBody
  rw [List.dropLast_concat, hg1]
  simp only []
  rw [extract_ws, extract_tok_comma r2 ('0' :: 'x' :: hs) (r1 ++ [',']) hr2w]
  simp only [headD_append r2 [','] hr2, hr2h, Bool.false_eq_true, false_or, or_false,
    if_false, reduceIte]
  rw [List.dropLast_concat, hg2]
  simp only []
  rw [extract_ws, extract_fin ('0' :: 'x' :: hs) (r2 ++ [',']) (by simp) htokw]
  simp only [show headD ('0' :: 'x' :: hs) = '0' from rfl,
    show ('0' : Char) ≠ '#' from by decide,
    show hexTokB ('0' :: 'x' :: hs) = true from rfl,
    Bool.false_eq_true, false_or, or_false, if_false, if_true, reduceIte]
  rw [hex_stoiHex hs hhs hhsx hb]
  simp only []
  rw [intToW32_ofNat _ (lt_trans hb (by norm_num))]
  unfold finishLine
  rw [extract_eof]
  simp

/-- Symbolic evaluation of `processLine` on an I-format line with a
`0x`-hexadecimal immediate. -/
theorem processLineL_I_hex (m r1 r2 hs : List Char) (b v1 v2 pos : Nat)
    (lbls : List (String × Nat))
    (hm : m ≠ []) (hmw : ∀ c ∈ m, isWsC c = false) (hmh : headD m ≠ '#')
    (hmc : lastD m ≠ ':')
    (hr1 : r1 ≠ []) (hr1w : ∀ c ∈ r1, isWsC c = false) (hr1h : headD r1 ≠ '#')
    (hr2 : r2 ≠ []) (hr2w : ∀ c ∈ r2, isWsC c = false) (hr2h : headD r2 ≠ '#')
    (hhs : hs ≠ []) (hhsx : ∀ c ∈ hs, isHexC c = true) (hb : hexDigitsVal hs < 2 ^ 31)
    (hop : getOpcode (String.mk m) = some ('I', b))
    (hg1 : getRegister r1 7 = some v1) (hg2 : getRegister r2 15 = some v2) :
    processLineL
        (m ++ (' ' :: (r1 ++ (',' :: (' ' :: (r2 ++ (',' :: (' ' :: ('0' :: 'x' :: hs)))))))))
        lbls pos
      = some (((b ||| v1) ||| v2) ||| ((hexDigitsVal hs <<< 20) % 2 ^ 32)) := by
  unfold processLineL
  rw [extract_tok m _ [] hm hmw]
  simp only [List.length_eq_zero, hm, hmh, hmc, Bool.false_eq_true, false_or, or_false,
    if_false, reduceIte]
  rw [hop]
  simp only []
  rw [extract_ws, extract_tok_comma r1 _ m hr1w]
  simp only [headD_append r1 [','] hr1, hr1h, Bool.false_eq_true, false_or, or_false,
    if_false, if_true, reduceIte]
  exact iBody_hex lbls pos b r1 r2 hs v1 v2 hr2 hr2w hr2h hhs hhsx hb hg1 hg2

/-- C10 (amended): in an I-format line a decimal or `0x`-hexadecimal
immediate of any magnitude that fits `int` is accepted without a range
check; the parsed value is shifted left by 20 and truncated mod 2^32 before
being OR-ed in, and for every value the truncated contribution is 0 below
bit 20, so the rd, funct3 and rs1 fields are never touched by an oversized
immediate. -/
theorem c10_amended :
    (∀ (m r1 r2 ds : List Char) (b v1 v2 pos : Nat) (lbls : List (String × Nat)),
      m ≠ [] → (∀ c ∈ m, isWsC c = false) → headD m ≠ '#' → lastD m ≠ ':' →
      r1 ≠ [] → (∀ c ∈ r1, isWsC c = false) → headD r1 ≠ '#' →
      r2 ≠ [] → (∀ c ∈ r2, isWsC c = false) → headD r2 ≠ '#' →
      ds ≠ [] → (∀ c ∈ ds, digitC c = true) → digitsVal ds < 2 ^ 31 →
      getOpcode (String.mk m) = some ('I', b) →
      getRegister r1 7 = some v1 → getRegister r2 15 = some v2 →
      processLineL (m ++ (' ' :: (r1 ++ (',' :: (' ' :: (r2 ++ (',' :: (' ' :: ds))))))))
          lbls pos
        = some (((b ||| v1) ||| v2) ||| ((digitsVal ds <<< 20) % 2 ^ 32)))
  ∧ (∀ (m r1 r2 hs : List Char) (b v1 v2 pos : Nat) (lbls : List (String × Nat)),
      m ≠ [] → (∀ c ∈ m, isWsC c = false) → headD m ≠ '#' → lastD m ≠ ':' →
      r1 ≠ [] → (∀ c ∈ r1, isWsC c = false) → headD r1 ≠ '#' →
      r2 ≠ [] → (∀ c ∈ r2, isWsC c = false) → headD r2 ≠ '#' →
      hs ≠ [] → (∀ c ∈ hs, isHexC c = true) → hexDigitsVal hs < 2 ^ 31 →
      getOpcode (String.mk m) = some ('I', b) →
      getRegister r1 7 = some v1 → getRegister r2 15 = some v2 →
      processLineL
          (m ++ (' ' :: (r1 ++ (',' :: (' ' :: (r2 ++ (',' :: (' ' :: ('0' :: 'x' :: hs)))))))))
          lbls pos
        = some (((b ||| v1) ||| v2) ||| ((hexDigitsVal hs <<< 20) % 2 ^ 32)))
  ∧ (∀ v : Nat, ((v <<< 20) % 2 ^ 32) % 2 ^ 20 = 0) := by
  refine ⟨?_, ?_, ?_⟩
  · intro m r1 r2 ds b v1 v2 pos lbls hm hmw hmh hmc hr1 hr1w hr1h hr2 hr2w hr2h hds
      hdsd hb hop hg1 hg2
    exact processLineL_I_dec m r1 r2 ds b v1 v2 pos lbls hm hmw hmh hmc hr1 hr1w hr1h
      hr2 hr2w hr2h hds hdsd hb hop hg1 hg2
  · intro m r1 r2 hs b v1 v2 pos lbls hm hmw hmh hmc hr1 hr1w hr1h hr2 hr2w hr2h hhs
      hhsx hb hop hg1 hg2
    exact processLineL_I_hex m r1 r2 hs b v1 v2 pos lbls hm hmw hmh hmc hr1 hr1w hr1h
      hr2 hr2w hr2h hhs hhsx hb hop hg1 hg2
  · intro v
    rw [Nat.shiftLeft_eq, Nat.mod_mod_of_dvd _ ⟨2 ^ 12, by norm_num⟩]
    exact Nat.mul_mod_left _ _

/-- C10 (witness): the amended claim applied to `addi x1, x0, 4096` and to
`addi x1, x0, 0x123456`, whose immediates exceed the signed 12-bit field. -/
theorem c10_amended_witness :
    processLineL ("addi".data ++ (' ' :: ("x1".data ++ (',' :: (' ' ::
        ("x0".data ++ (',' :: (' ' :: "4096".data))))))) ) [] 1
      = some (((0x13 ||| 0x80) ||| 0) ||| ((digitsVal "4096".data <<< 20) % 2 ^ 32))
    ∧ processLineL ("addi".data ++ (' ' :: ("x1".data ++ (',' :: (' ' ::
        ("x0".data ++ (',' :: (' ' :: ('0' :: 'x' :: "123456".data)))))))) ) [] 1
      = some (((0x13 ||| 0x80) ||| 0) ||| ((hexDigitsVal "123456".data <<< 20) % 2 ^ 32)) :=
  ⟨c10_amended.1 "addi".data "x1".data "x0".data "4096".data 0x13 0x80 0 1 []
    (by decide) (by decide) (by decide) (by decide) (by decide) (by decide)
    (by decide) (by decide) (by decide) (by decide) (by decide) (by decide)
    (by decide) (by decide) (by decide) (by decide),
   c10_amended.2.1 "addi".data "x1".data "x0".data "123456".data 0x13 0x80 0 1 []
    (by decide) (by decide) (by decide) (by decide) (by decide) (by decide)
    (by decide) (by decide) (by decide) (by decide) (by decide) (by decide)
    (by decide) (by decide) (by decide) (by decide)⟩

theorem hexDig_mem (n : Nat) : hexDig n ∈ hexChars := by
  have h : n &&& 0xf < 16 := Nat.lt_succ_of_le Nat.and_le_right
  unfold hexDig
  generalize hk : n &&& 0xf = k at h
  interval_cases k <;> decide

theorem toHex8_shape (w : Nat) :
    (String.mk (toHex8 w)).length = 8 ∧ ∀ c ∈ (String.mk (toHex8 w)).data, c ∈ hexChars := by
  constructor
  · rfl
  · intro c hc
    simp only [String.mk, toHex8, List.mem_cons, List.not_mem_nil, or_false] at hc
    rcases hc with h | h | h | h | h | h | h | h <;> (subst h; exact hexDig_mem _)

/-- C7: every line pass 2 emits is exactly eight uppercase hexadecimal
digits (the zero-padded 32-bit word; the newline is appended by the printf
format), with no header, addresses, or separators; and a line whose computed
word is exactly 0 emits nothing and does not advance the instruction
index. -/
theorem c7_output_shape :
    (∀ (lines : List String) (lbls : List (String × Nat)) (i : Nat) (out : List String),
      pass2 lines lbls i = some out →
      ∀ s ∈ out, s.length = 8 ∧ ∀ c ∈ s.data, c ∈ hexChars)
  ∧ (∀ (l : String) (rest : List String) (lbls : List (String × Nat)) (i : Nat),
      processLine l lbls i = some 0 →
      pass2 (l :: rest) lbls i = pass2 rest lbls i) := by
  constructor
  · intro lines
    induction lines with
    | nil =>
      intro lbls i out hout s hs
      rw [show pass2 [] lbls i = some [] from rfl] at hout
      injection hout with hout
      subst hout
      cases hs
    | cons l rest ih =>
      intro lbls i out hout s hs
      unfold pass2 at hout
      cases hpl : processLine l lbls i with
      | none => rw [hpl] at hout; cases hout
      | some w =>
        rw [hpl] at hout
        simp only [] at hout
        by_cases hw : w = 0
        · rw [if_pos hw] at hout
          exact ih lbls i out hout s hs
        · rw [if_neg hw] at hout
          cases hrest : pass2 rest lbls (i + 1) with
          | none => rw [hrest] at hout; cases hout
          | some out2 =>
            rw [hrest] at hout
            simp only [] at hout
            injection hout with hout
            subst hout
            rcases List.mem_cons.mp hs with h | h
            · subst h
              exact toHex8_shape w
            · exact ih lbls (i + 1) out2 hrest s h
  · intro l rest lbls i hpl
    conv_lhs => rw [pass2, hpl]
    simp

/-- C7 (witness): the shape property applied to the output of the one-line
program `addi x1, x0, 5`, and the suppression equation applied to a
comment-only line. -/
theorem c7_output_shape_witness :
    ("00500093".length = 8 ∧ ∀ c ∈ "00500093".data, c ∈ hexChars) ∧
    pass2 ["# note", "addi x1, x0, 5"] [] 1 = pass2 ["addi x1, x0, 5"] [] 1 :=
  ⟨c7_output_shape.1 ["addi x1, x0, 5"] [] 1 ["00500093"] (by decide) "00500093"
      (by decide),
   c7_output_shape.2 "# note" ["addi x1, x0, 5"] [] 1 (by decide)⟩

/-- C1: the claim is false on the code.  For the input line `sw x2, x1, 8`
the assembler does not emit `0020A423`: the S-encoder places the first
operand at bit 15 and the second at bit 20, so the word is `00112423`. -/
theorem c1_counterexample : process ["sw x2, x1, 8"] ≠ some ["0020A423"] := by decide

/-- C1 (amended): for the single input line `sw x2, x1, 8` the assembler
emits exactly the output line `00112423` (x2 in bits 19:15, x1 in bits 24:20,
immediate 8 split as imm[4:0]=8 at bit 7). -/
theorem c1_amended : process ["sw x2, x1, 8"] = some ["00112423"] := by decide

/-- C2: the claim fails on the code.  In the file `A:` / `L: add x1, x1, x1`
the label-only first line leaves the reused `stringstream` with
`failbit` set (`.str()` does not clear it), so the pass 1 loop exits and the
later declaration `L:` is never recorded, although `A` itself is. -/
theorem c2_eval :
    findLabelPos "L" (pass1 ["A:", "L: add x1, x1, x1"]) = none ∧
    findLabelPos "A" (pass1 ["A:", "L: add x1, x1, x1"]) = some 1 := by decide

/-- C4: the claim fails on the code.  In a B-format line the decimal test
reads `input.at(0)` (first character of the whole line, here `b`) instead of
the token, so the decimal immediate token `8` is resolved as a label: with no
label `8` the line aborts, and with `8` bound to 3 the encoding uses the
displacement 3 - 1 = 2 (word `0x163`), not the decimal value 8. -/
theorem c4_eval :
    processLine "beq x0, x0, 8" [] 1 = none ∧
    processLine "beq x0, x0, 8" [("8", 3)] 1 = some 0x163 := by decide

/-- C5: the claim fails on the code.  The table gives `mulh` the base word
`0x02002033` (funct3 = 010, the RISC-V funct3 of `mulhsu`, not 001), so the
base words of `mulh` and `mulhsu` are equal instead of different. -/
theorem c5_eval :
    getOpcode "mulh" = some ('R', 0x02002033) ∧
    getOpcode "mulhsu" = some ('R', 0x02002033) ∧
    getOpcode "mulh" = getOpcode "mulhsu" := by decide

/-- C6: the claim fails on the code.  Inserting a blank line before
`L: add x1, x1, x1` makes the pass 1 extraction fail (`failbit` persists
across `.str()`), the pass 1 loop stops, and the binding of `L` disappears. -/
theorem c6_eval :
    findLabelPos "L" (pass1 ["L: add x1, x1, x1"]) = some 1 ∧
    findLabelPos "L" (pass1 ["", "L: add x1, x1, x1"]) = none := by decide

/-- C8: the claim is false on the code.  The token `x111`, whose written
numeric suffix 111 exceeds 31, is not rejected: the digit-accumulation loop
computes `1*20 + 1*10 + 1*1 = 31 < 32` and the token is mapped to
register 31. -/
theorem c8_counterexample : getRegister "x111".data 0 ≠ none := by decide

/-- C8 (amended): for every token and offset, the decoder fails exactly when
the token is longer than 4 characters, or its non-digit characters with the
value computed by the digit-weighting loop (digit times
`10 * (length - index - 1)`, plus the digit when it is the last character)
are not a recognized family/alias in range (`famRange`) - the weighted value,
not the written numeric suffix, is what is range-checked, so `x111` (weighted
value 31) is accepted as register 31 and `x100` (weighted value 20) as
register 20. -/
theorem c8_amended :
    (∀ (t : List Char) (off : Nat),
      getRegister t off = none ↔
        4 < t.length ∨ ¬ famRange (nonNumeric t) (numericPart t) t.length) ∧
    getRegister "x111".data 0 = some 31 ∧
    getRegister "x100".data 0 = some 20 := by
  refine ⟨fun t off => ?_, by decide, by decide⟩
  by_cases hlen : 4 < t.length
  · simp [getRegister, hlen]
  · simp only [getRegister, if_neg hlen, hlen, false_or]
    by_cases h1 : nonNumeric t = ['x'] ∧ numericPart t < 32
    · simp [famRange, h1]
    rw [if_neg h1]
    by_cases h2 : nonNumeric t = ['t'] ∧ numericPart t < 7
    · simp [famRange, h2]
    rw [if_neg h2]
    by_cases h3 : nonNumeric t = ['s'] ∧ numericPart t < 12
    · simp [famRange, h3]
    rw [if_neg h3]
    by_cases h4 : nonNumeric t = ['a'] ∧ numericPart t < 8
    · simp [famRange, h4]
    rw [if_neg h4]
    by_cases h5 : nonNumeric t = ['r', 'a'] ∧ t.length = 2
    · simp [famRange, h5]
    rw [if_neg h5]
    by_cases h6 : nonNumeric t = ['s', 'p'] ∧ t.length = 2
    · simp [famRange, h6]
    rw [if_neg h6]
    by_cases h7 : nonNumeric t = ['g', 'p'] ∧ t.length = 2
    · simp [famRange, h7]
    rw [if_neg h7]
    by_cases h8 : nonNumeric t = ['t', 'p'] ∧ t.length = 2
    · simp [famRange, h8]
    rw [if_neg h8]
    by_cases h9 : nonNumeric t = ['f', 'p'] ∧ t.length = 2
    · simp [famRange, h9]
    rw [if_neg h9]
    by_cases h10 : nonNumeric t = ['z', 'e', 'r', 'o'] ∧ t.length = 4
    · simp [famRange, h10]
    rw [if_neg h10]
    simp [famRange, h1, h2, h3, h4, h5, h6, h7, h8, h9, h10]

/-- C8 (witness): the characterization of `c8_amended` applied at the
concrete tokens `x1234` (length 5) and `x59` (weighted value 59, out of
range for the `x` family). -/
theorem c8_amended_witness :
    getRegister "x1234".data 0 = none ∧ getRegister "x59".data 0 = none :=
  ⟨(c8_amended.1 "x1234".data 0).mpr (Or.inl (by decide)),
   (c8_amended.1 "x59".data 0).mpr (Or.inr (by unfold famRange; decide))⟩

/-- C9: the claim is false on the code.  In the file
`L: add x1, x1, x1` / (blank) / `L: add x1, x1, x1` the blank line stops
pass 1, so `L` stays bound to 1, the binding of its FIRST declaration; the
second file shows that when both declarations are processed the last one
wins with index 2. -/
theorem c9_counterexample :
    findLabelPos "L" (pass1 ["L: add x1, x1, x1", "", "L: add x1, x1, x1"]) = some 1 ∧
    findLabelPos "L" (pass1 ["L: add x1, x1, x1", "L: add x1, x1, x1"]) = some 2 := by
  decide

/-- C9 (amended): each `makeLabel` insertion overwrites any previous binding
of the same name as far as `findLabelPos` can observe, so a duplicated label
maps to the last declaration that pass 1 actually processes (the last one in
file order whenever the pass 1 scan reaches the end of the file, as in the
two-line file below). -/
theorem c9_amended :
    (∀ (m : List (String × Nat)) (n : String) (p q : Nat),
      findLabelPos n (makeLabel n q (makeLabel n p m)) = some q) ∧
    findLabelPos "L" (pass1 ["L: add x1, x1, x1", "L: add x1, x1, x1"]) = some 2 := by
  refine ⟨fun m n p q => ?_, by decide⟩
  unfold makeLabel findLabelPos
  rw [if_pos rfl]

/-- C10: the claim is false on the code about where the out-of-range bits
go.  The decimal immediate 4096 = 2^12 is accepted (no range check), but
`(4096 << 20) mod 2^32 = 0`: the excess bits are discarded past bit 31, so
the word equals the encoding of immediate 0 with rd, funct3, rs1 untouched,
rather than "overflowing into the rs1, funct3 and rd bit positions". -/
theorem c10_counterexample :
    processLine "addi x1, x0, 4096" [] 1 = some 0x93 ∧
    processLine "addi x1, x0, 4096" [] 1 = processLine "addi x1, x0, 0" [] 1 := by
  decide

end Rva
